import Mathlib

/-!
Verification of the zynmixer stereo summing mixer (zynlibs/zynmixer).
The repository ships the public interface `mixer.h`; the behaviour of each
operation is modelled from the specification (spec.md), which documents the
channel store, the control API, the audio mixing engine, the peak meter and
the OSC client registry.
-/

namespace Zynmixer

/-- Modelled from the spec: fixed channel capacity (`getMaxChannels`).  The
spec fixes the channel set at initialization and never resizes it; the exact
count is an implementation constant. -/
def MAX_CHANNELS : ℕ := 16

/-- Index of the reserved Master slot: one slot past the last input channel. -/
def masterIdx : Fin (MAX_CHANNELS + 1) := ⟨MAX_CHANNELS, by omega⟩

/-- Modelled from the spec: per-channel control parameters (§3 Data Model).
`level` is linear gain clamped to [0,1], `balance` is stereo position clamped
to [-1,1]; `mute`, `solo`, `mono`, `phase` and `dpmEnabled` are booleans. -/
structure ChannelStrip where
  level : ℚ
  balance : ℚ
  mute : Bool
  solo : Bool
  mono : Bool
  phase : Bool
  dpmEnabled : Bool
deriving DecidableEq, Repr

/-- Modelled from the spec: per-channel, per-leg peak meter state (§4.3):
the most recent period's peak, the decaying held peak and the hold timer. -/
structure PeakState where
  peak : ℚ
  held : ℚ
  holdTimer : ℕ
deriving DecidableEq, Repr

/-- Modelled from the spec: documented defaults used by `reset` (§4.1):
level 0.8, balance centered, all booleans false. -/
def defaultLevel : ℚ := 4/5

/-- Default strip: documented reset defaults, metering enabled. -/
def defaultStrip : ChannelStrip :=
  { level := defaultLevel, balance := 0, mute := false, solo := false,
    mono := false, phase := false, dpmEnabled := true }

/-- Whole mixer state: fixed array of strips (channels 0..MAX_CHANNELS-1 plus
the Master slot) and one PeakState per channel per stereo leg. -/
structure MixerState where
  strips : Fin (MAX_CHANNELS + 1) → ChannelStrip
  meters : Fin (MAX_CHANNELS + 1) → Fin 2 → PeakState

/-- Initial state after `init`: every slot at its defaults, meters cleared. -/
def initState : MixerState :=
  { strips := fun _ => defaultStrip, meters := fun _ _ => ⟨0, 0, 0⟩ }

/-- Modelled from the spec: index resolution (§7).  A negative index is
invalid and resolves to nothing (operations become no-ops); any index
≥ MAX_CHANNELS (the boundary included, per the spec's stated choice)
addresses the Master slot; an in-range index addresses its own channel. -/
def resolveChannel (channel : ℤ) : Option (Fin (MAX_CHANNELS + 1)) :=
  if channel < 0 then none
  else some ⟨min channel.toNat MAX_CHANNELS, by omega⟩

/-- Clamp `x` into the interval [lo, hi]. -/
def clamp (lo hi x : ℚ) : ℚ := max lo (min hi x)

/-- Update the strip resolved by `channel`, doing nothing on an invalid index. -/
def updateStrip (st : MixerState) (channel : ℤ) (f : ChannelStrip → ChannelStrip) :
    MixerState :=
  match resolveChannel channel with
  | none => st
  | some i => { st with strips := Function.update st.strips i (f (st.strips i)) }

/-- Modelled from the spec: `setLevel` clamps to [0,1] and writes the resolved
slot's level; invalid index is a no-op. -/
def setLevel (st : MixerState) (channel : ℤ) (level : ℚ) : MixerState :=
  updateStrip st channel (fun s => { s with level := clamp 0 1 level })

/-- Modelled from the spec: `getLevel` reads the resolved slot's level;
an invalid index yields 0. -/
def getLevel (st : MixerState) (channel : ℤ) : ℚ :=
  match resolveChannel channel with
  | none => 0
  | some i => (st.strips i).level

/-- Modelled from the spec: `setBalance` clamps to [-1,1] and writes the
resolved slot's balance; invalid index is a no-op. -/
def setBalance (st : MixerState) (channel : ℤ) (pan : ℚ) : MixerState :=
  updateStrip st channel (fun s => { s with balance := clamp (-1) 1 pan })

/-- Modelled from the spec: `getBalance` reads the resolved slot's balance;
an invalid index yields 0. -/
def getBalance (st : MixerState) (channel : ℤ) : ℚ :=
  match resolveChannel channel with
  | none => 0
  | some i => (st.strips i).balance

/-- Modelled from the spec: `setMute` writes the stored mute flag. -/
def setMute (st : MixerState) (channel : ℤ) (mute : Bool) : MixerState :=
  updateStrip st channel (fun s => { s with mute := mute })

/-- Modelled from the spec: `getMute` reads the stored mute flag. -/
def getMute (st : MixerState) (channel : ℤ) : Bool :=
  match resolveChannel channel with
  | none => false
  | some i => (st.strips i).mute

/-- Modelled from the spec: `toggleMute` flips the stored mute flag. -/
def toggleMute (st : MixerState) (channel : ℤ) : MixerState :=
  updateStrip st channel (fun s => { s with mute := !s.mute })

/-- Modelled from the spec: `setSolo` writes the stored solo flag. -/
def setSolo (st : MixerState) (channel : ℤ) (solo : Bool) : MixerState :=
  updateStrip st channel (fun s => { s with solo := solo })

/-- Modelled from the spec: `getSolo` reads the stored solo flag. -/
def getSolo (st : MixerState) (channel : ℤ) : Bool :=
  match resolveChannel channel with
  | none => false
  | some i => (st.strips i).solo

/-- Modelled from the spec: `setMono` writes the mono-sum flag. -/
def setMono (st : MixerState) (channel : ℤ) (mono : Bool) : MixerState :=
  updateStrip st channel (fun s => { s with mono := mono })

/-- Modelled from the spec: `getMono` reads the mono-sum flag. -/
def getMono (st : MixerState) (channel : ℤ) : Bool :=
  match resolveChannel channel with
  | none => false
  | some i => (st.strips i).mono

/-- Modelled from the spec: `setPhase` writes the phase-inversion flag. -/
def setPhase (st : MixerState) (channel : ℤ) (phase : Bool) : MixerState :=
  updateStrip st channel (fun s => { s with phase := phase })

/-- Modelled from the spec: `getPhase` reads the phase-inversion flag. -/
def getPhase (st : MixerState) (channel : ℤ) : Bool :=
  match resolveChannel channel with
  | none => false
  | some i => (st.strips i).phase

/-- Modelled from the spec: `reset` restores the resolved slot's six control
fields (level, balance, mute, solo, mono, phase) to the documented defaults,
leaving `dpmEnabled` and every other slot untouched; invalid index is a
no-op. -/
def reset (st : MixerState) (channel : ℤ) : MixerState :=
  updateStrip st channel (fun s =>
    { s with level := defaultLevel, balance := 0, mute := false,
             solo := false, mono := false, phase := false })

/-- Modelled from the spec: `enableDpm` gates peak scanning for a channel. -/
def enableDpm (st : MixerState) (channel : ℤ) (enable : Bool) : MixerState :=
  updateStrip st channel (fun s => { s with dpmEnabled := enable })

/-- `getMaxChannels` returns the fixed channel capacity. -/
def getMaxChannels : ℕ := MAX_CHANNELS

theorem resolveChannel_nonneg (c : ℤ) (hc : 0 ≤ c) :
    resolveChannel c = some ⟨min c.toNat MAX_CHANNELS, by omega⟩ := by
  simp [resolveChannel, not_lt.mpr hc]

theorem resolveChannel_fin (i : Fin (MAX_CHANNELS + 1)) :
    resolveChannel (i.val : ℤ) = some i := by
  have h : ¬ ((i.val : ℤ) < 0) := by omega
  have hv : i.val ≤ MAX_CHANNELS := by omega
  simp only [resolveChannel, if_neg h, Int.toNat_natCast, Option.some_inj]
  exact Fin.ext (by simpa using Nat.min_eq_left hv)

theorem resolveChannel_ge (c : ℤ) (hc : (MAX_CHANNELS : ℤ) ≤ c) :
    resolveChannel c = some masterIdx := by
  have h : ¬ (c < 0) := by omega
  have hv : MAX_CHANNELS ≤ c.toNat := by omega
  simp only [resolveChannel, if_neg h, Option.some_inj, masterIdx]
  exact Fin.ext (by simpa using Nat.min_eq_right hv)

theorem clamp_mem (lo hi x : ℚ) (h : lo ≤ hi) :
    lo ≤ clamp lo hi x ∧ clamp lo hi x ≤ hi := by
  refine ⟨le_max_left _ _, max_le h (min_le_left _ _)⟩

theorem resolveChannel_neg (c : ℤ) (hc : c < 0) : resolveChannel c = none := by
  simp [resolveChannel, hc]

theorem updateStrip_resolved (st : MixerState) (c : ℤ) (f : ChannelStrip → ChannelStrip)
    (i : Fin (MAX_CHANNELS + 1)) (h : resolveChannel c = some i) :
    (updateStrip st c f).strips i = f (st.strips i) := by
  simp [updateStrip, h]

theorem updateStrip_other (st : MixerState) (c : ℤ) (f : ChannelStrip → ChannelStrip)
    (i j : Fin (MAX_CHANNELS + 1)) (h : resolveChannel c = some i) (hne : j ≠ i) :
    (updateStrip st c f).strips j = st.strips j := by
  simp [updateStrip, h, Function.update_noteq hne]

theorem updateStrip_invalid (st : MixerState) (c : ℤ) (f : ChannelStrip → ChannelStrip)
    (h : resolveChannel c = none) : updateStrip st c f = st := by
  simp [updateStrip, h]

/-- C2: for every channel index and every value, `setLevel` then `getLevel`
returns `clamp x 0 1` and `setBalance` then `getBalance` returns
`clamp x (-1) 1`; out-of-range input is clamped on write, never rejected, so
the stored level lies in [0,1] and the stored balance in [-1,1] after the
write. -/
theorem setget_clamp_roundtrip :
    ∀ (st : MixerState) (c : ℤ) (x : ℚ), 0 ≤ c →
      (getLevel (setLevel st c x) c = clamp 0 1 x ∧
        0 ≤ getLevel (setLevel st c x) c ∧ getLevel (setLevel st c x) c ≤ 1) ∧
      (getBalance (setBalance st c x) c = clamp (-1) 1 x ∧
        -1 ≤ getBalance (setBalance st c x) c ∧ getBalance (setBalance st c x) c ≤ 1) := by
  intro st c x hc
  obtain ⟨i, hi⟩ : ∃ i, resolveChannel c = some i :=
    ⟨_, resolveChannel_nonneg c hc⟩
  have hl : getLevel (setLevel st c x) c = clamp 0 1 x := by
    simp [getLevel, setLevel, hi, updateStrip_resolved _ _ _ _ hi]
  have hb : getBalance (setBalance st c x) c = clamp (-1) 1 x := by
    simp [getBalance, setBalance, hi, updateStrip_resolved _ _ _ _ hi]
  refine ⟨⟨hl, ?_, ?_⟩, hb, ?_, ?_⟩
  · rw [hl]; exact (clamp_mem 0 1 x (by norm_num)).1
  · rw [hl]; exact (clamp_mem 0 1 x (by norm_num)).2
  · rw [hb]; exact (clamp_mem (-1) 1 x (by norm_num)).1
  · rw [hb]; exact (clamp_mem (-1) 1 x (by norm_num)).2

/-- Witness for C2 at channel 0 with the out-of-range value 2. -/
theorem setget_clamp_roundtrip_witness :
    (getLevel (setLevel initState 0 2) 0 = clamp 0 1 2 ∧
      0 ≤ getLevel (setLevel initState 0 2) 0 ∧ getLevel (setLevel initState 0 2) 0 ≤ 1) ∧
    (getBalance (setBalance initState 0 2) 0 = clamp (-1) 1 2 ∧
      -1 ≤ getBalance (setBalance initState 0 2) 0 ∧
      getBalance (setBalance initState 0 2) 0 ≤ 1) :=
  setget_clamp_roundtrip initState 0 2 (by decide)

/-- C3: every index ≥ MAX_CHANNELS, the boundary included, resolves to the
Master slot, and that slot is distinct from every in-range channel:
`setLevel MAX_CHANNELS 0.5` sets only the Master level and leaves every
channel 0..MAX_CHANNELS-1 unchanged. -/
theorem master_redirect_isolated :
    (∀ c : ℤ, (MAX_CHANNELS : ℤ) ≤ c → resolveChannel c = some masterIdx) ∧
    ∀ st : MixerState,
      ((setLevel st (MAX_CHANNELS : ℤ) (1/2)).strips masterIdx).level = 1/2 ∧
      ∀ i : Fin (MAX_CHANNELS + 1), i.val < MAX_CHANNELS →
        (setLevel st (MAX_CHANNELS : ℤ) (1/2)).strips i = st.strips i := by
  constructor
  · exact fun c hc => resolveChannel_ge c hc
  · intro st
    have hres : resolveChannel (MAX_CHANNELS : ℤ) = some masterIdx :=
      resolveChannel_ge _ le_rfl
    constructor
    · rw [setLevel, updateStrip_resolved _ _ _ _ hres]
      norm_num [clamp]
    · intro i hilt
      have hne : i ≠ masterIdx := by
        intro h; rw [h] at hilt; exact absurd hilt (by simp [masterIdx])
      exact updateStrip_other _ _ _ _ _ hres hne

/-- Witness for C3 at the boundary index and one index past it. -/
theorem master_redirect_isolated_witness :
    resolveChannel 17 = some masterIdx ∧
    ((setLevel initState (MAX_CHANNELS : ℤ) (1/2)).strips masterIdx).level = 1/2 ∧
    (setLevel initState (MAX_CHANNELS : ℤ) (1/2)).strips ⟨0, by decide⟩ =
      initState.strips ⟨0, by decide⟩ :=
  ⟨master_redirect_isolated.1 17 (by decide),
    (master_redirect_isolated.2 initState).1,
    (master_redirect_isolated.2 initState).2 ⟨0, by decide⟩ (by decide)⟩

/-- C10: every control operation on a negative index is a no-op that changes
no channel or master state and raises no fault (getters return a fixed
default), and every non-negative index resolves to a valid slot, so no
out-of-bounds access occurs for any integer index. -/
theorem invalid_index_noop :
    (∀ (st : MixerState) (c : ℤ) (x : ℚ) (v : Bool), c < 0 →
      setLevel st c x = st ∧ setBalance st c x = st ∧ setMute st c v = st ∧
      setSolo st c v = st ∧ setMono st c v = st ∧ setPhase st c v = st ∧
      toggleMute st c = st ∧ reset st c = st ∧ enableDpm st c v = st ∧
      getLevel st c = 0 ∧ getBalance st c = 0 ∧ getMute st c = false ∧
      getSolo st c = false ∧ getMono st c = false ∧ getPhase st c = false) ∧
    ∀ c : ℤ, 0 ≤ c → ∃ i, resolveChannel c = some i := by
  constructor
  · intro st c x v hc
    have h := resolveChannel_neg c hc
    refine ⟨updateStrip_invalid _ _ _ h, updateStrip_invalid _ _ _ h,
      updateStrip_invalid _ _ _ h, updateStrip_invalid _ _ _ h,
      updateStrip_invalid _ _ _ h, updateStrip_invalid _ _ _ h,
      updateStrip_invalid _ _ _ h, updateStrip_invalid _ _ _ h,
      updateStrip_invalid _ _ _ h, ?_, ?_, ?_, ?_, ?_, ?_⟩ <;>
      simp [getLevel, getBalance, getMute, getSolo, getMono, getPhase, h]
  · exact fun c hc => ⟨_, resolveChannel_nonneg c hc⟩

/-- Witness for C10 at index -1. -/
theorem invalid_index_noop_witness :
    setLevel initState (-1) (1/2) = initState ∧
    reset initState (-1) = initState ∧
    getMute initState (-1) = false :=
  ⟨(invalid_index_noop.1 initState (-1) (1/2) true (by decide)).1,
    (invalid_index_noop.1 initState (-1) (1/2) true (by decide)).2.2.2.2.2.2.2.1,
    (invalid_index_noop.1 initState (-1) (1/2) true (by decide)).2.2.2.2.2.2.2.2.2.2.2.1⟩

/-- C8: `reset` on any state sets the resolved slot's level, balance, mute,
solo, mono and phase to the fixed documented defaults and leaves every other
slot, the Master slot included when the channel is in range, unchanged. -/
theorem reset_restores_defaults :
    ∀ (st : MixerState) (c : ℤ) (i : Fin (MAX_CHANNELS + 1)),
      resolveChannel c = some i →
      ((reset st c).strips i).level = defaultLevel ∧
      ((reset st c).strips i).balance = 0 ∧
      ((reset st c).strips i).mute = false ∧
      ((reset st c).strips i).solo = false ∧
      ((reset st c).strips i).mono = false ∧
      ((reset st c).strips i).phase = false ∧
      ∀ j, j ≠ i → (reset st c).strips j = st.strips j := by
  intro st c i hi
  have hr := updateStrip_resolved st c
    (fun s => { s with level := defaultLevel, balance := 0, mute := false,
                       solo := false, mono := false, phase := false }) i hi
  refine ⟨?_, ?_, ?_, ?_, ?_, ?_, ?_⟩
  · rw [reset, hr]
  · rw [reset, hr]
  · rw [reset, hr]
  · rw [reset, hr]
  · rw [reset, hr]
  · rw [reset, hr]
  · exact fun j hj => updateStrip_other _ _ _ _ _ hi hj

/-- Witness for C8: resetting channel 0 after prior mutation restores its
mute flag and leaves the Master slot untouched. -/
theorem reset_restores_defaults_witness :
    ((reset (setMute initState 0 true) 0).strips (0 : Fin (MAX_CHANNELS + 1))).mute = false ∧
    ((reset (setMute initState 0 true) 0).strips (0 : Fin (MAX_CHANNELS + 1))).level = defaultLevel ∧
    (reset (setMute initState 0 true) 0).strips masterIdx =
      (setMute initState 0 true).strips masterIdx :=
  ⟨(reset_restores_defaults (setMute initState 0 true) 0 (0 : Fin (MAX_CHANNELS + 1))
      (by decide)).2.2.1,
    (reset_restores_defaults (setMute initState 0 true) 0 (0 : Fin (MAX_CHANNELS + 1))
      (by decide)).1,
    (reset_restores_defaults (setMute initState 0 true) 0 (0 : Fin (MAX_CHANNELS + 1))
      (by decide)).2.2.2.2.2.2 masterIdx (by decide)⟩

/-- Modelled from the spec: per-leg peak for one period is the maximum
absolute sample value in that leg's buffer, starting from 0. -/
def periodPeak (buf : List ℚ) : ℚ := buf.foldl (fun m s => max m |s|) 0

/-- Modelled from the spec: fixed hold duration in periods for the held peak. -/
def HOLD_PERIODS : ℕ := 20

/-- Modelled from the spec: fixed linear per-period decay step for the held
peak once the hold timer has elapsed. -/
def DECAY_STEP : ℚ := 1/100

/-- Modelled from the spec (§4.3): per-period held-peak evolution.  A new
higher peak jumps `held` up and resets the timer; while the timer is positive
it decrements with `held` unchanged; at timer zero `held` decays linearly
toward the current peak.  `peak` itself is replaced every period. -/
def updatePeak (ps : PeakState) (p : ℚ) : PeakState :=
  if ps.held < p then { peak := p, held := p, holdTimer := HOLD_PERIODS }
  else if 0 < ps.holdTimer then
    { peak := p, held := ps.held, holdTimer := ps.holdTimer - 1 }
  else { peak := p, held := max p (ps.held - DECAY_STEP), holdTimer := 0 }

/-- Apply a sequence of per-period peaks to a meter slot. -/
def applyPeaks (ps : PeakState) (l : List ℚ) : PeakState := l.foldl updatePeak ps

/-- Modelled from the spec: one period of metering on one channel leg,
skipped entirely when `dpmEnabled` is false. -/
def updateMeter (st : MixerState) (i : Fin (MAX_CHANNELS + 1)) (leg : Fin 2)
    (buf : List ℚ) : MixerState :=
  if (st.strips i).dpmEnabled then
    let slot := Function.update (st.meters i) leg
      (updatePeak (st.meters i leg) (periodPeak buf))
    { st with meters := Function.update st.meters i slot }
  else st

/-- Modelled from the spec: `getDpm` returns the instantaneous peak of the
resolved channel's leg; an invalid index yields 0. -/
def getDpm (st : MixerState) (channel : ℤ) (leg : Fin 2) : ℚ :=
  match resolveChannel channel with
  | none => 0
  | some i => (st.meters i leg).peak

/-- Modelled from the spec: `getDpmHold` returns the held peak of the
resolved channel's leg; an invalid index yields 0. -/
def getDpmHold (st : MixerState) (channel : ℤ) (leg : Fin 2) : ℚ :=
  match resolveChannel channel with
  | none => 0
  | some i => (st.meters i leg).held

theorem periodPeak_foldl (A : ℚ) :
    ∀ (n : ℕ) (acc : ℚ), 0 < n →
      List.foldl (fun m s => max m |s|) acc (List.replicate n A) = max acc |A| := by
  intro n
  induction n with
  | zero => intro acc h; omega
  | succ n ih =>
    intro acc _
    rw [List.replicate_succ, List.foldl_cons]
    rcases Nat.eq_zero_or_pos n with h0 | hpos
    · subst h0; simp
    · rw [ih _ hpos, max_assoc, max_self]

theorem periodPeak_replicate (n : ℕ) (A : ℚ) (hn : 0 < n) (hA : 0 ≤ A) :
    periodPeak (List.replicate n A) = A := by
  rw [periodPeak, periodPeak_foldl A n 0 hn, abs_of_nonneg hA]
  exact max_eq_right hA

theorem periodPeak_silence (n : ℕ) : periodPeak (List.replicate n 0) = 0 := by
  rcases Nat.eq_zero_or_pos n with h0 | hpos
  · subst h0; rfl
  · rw [periodPeak, periodPeak_foldl 0 n 0 hpos]; simp

theorem getDpm_updateMeter (st : MixerState) (i : Fin (MAX_CHANNELS + 1))
    (leg : Fin 2) (buf : List ℚ) (hen : (st.strips i).dpmEnabled = true) :
    getDpm (updateMeter st i leg buf) (i.val : ℤ) leg = periodPeak buf := by
  have hres := resolveChannel_fin i
  simp only [getDpm, updateMeter, if_pos hen, hres]
  simp only [Function.update_same]
  rw [updatePeak]
  split
  · rfl
  · split <;> rfl

/-- C4: with metering enabled, `getDpm` reports exactly the most recent
period's maximum absolute sample — the stored peak is replaced each period,
never accumulated — so a period of constant amplitude A reads back as A and a
subsequent all-silent period reads back as 0. -/
theorem dpm_is_period_peak :
    (∀ (ps : PeakState) (p : ℚ), (updatePeak ps p).peak = p) ∧
    (∀ (st : MixerState) (i : Fin (MAX_CHANNELS + 1)) (leg : Fin 2) (n : ℕ) (A : ℚ),
      0 < n → 0 ≤ A → (st.strips i).dpmEnabled = true →
      getDpm (updateMeter st i leg (List.replicate n A)) (i.val : ℤ) leg = A) ∧
    (∀ (st : MixerState) (i : Fin (MAX_CHANNELS + 1)) (leg : Fin 2) (n : ℕ),
      (st.strips i).dpmEnabled = true →
      getDpm (updateMeter st i leg (List.replicate n 0)) (i.val : ℤ) leg = 0) := by
  refine ⟨?_, ?_, ?_⟩
  · intro ps p
    rw [updatePeak]
    split
    · rfl
    · split <;> rfl
  · intro st i leg n A hn hA hen
    rw [getDpm_updateMeter st i leg _ hen, periodPeak_replicate n A hn hA]
  · intro st i leg n hen
    rw [getDpm_updateMeter st i leg _ hen, periodPeak_silence n]

/-- Witness for C4: channel 0, leg 0, three samples of amplitude 1/2, then a
silent period. -/
theorem dpm_is_period_peak_witness :
    getDpm (updateMeter initState (0 : Fin (MAX_CHANNELS + 1)) 0
        (List.replicate 3 1)) (((0 : Fin (MAX_CHANNELS + 1)).val : ℤ)) 0 = 1 ∧
    getDpm (updateMeter
        (updateMeter initState (0 : Fin (MAX_CHANNELS + 1)) 0 (List.replicate 3 1))
        (0 : Fin (MAX_CHANNELS + 1)) 0 (List.replicate 3 0))
        (((0 : Fin (MAX_CHANNELS + 1)).val : ℤ)) 0 = 0 :=
  ⟨dpm_is_period_peak.2.1 initState (0 : Fin (MAX_CHANNELS + 1)) 0 3 1
      (by norm_num) (by norm_num) (by decide),
    dpm_is_period_peak.2.2
      (updateMeter initState (0 : Fin (MAX_CHANNELS + 1)) 0 (List.replicate 3 1))
      (0 : Fin (MAX_CHANNELS + 1)) 0 3 (by decide)⟩

theorem updatePeak_jump (ps : PeakState) (p : ℚ) (h : ps.held < p) :
    updatePeak ps p = { peak := p, held := p, holdTimer := HOLD_PERIODS } := by
  simp [updatePeak, h]

theorem updatePeak_holding (ps : PeakState) (p : ℚ) (h : p ≤ ps.held)
    (ht : 0 < ps.holdTimer) :
    updatePeak ps p
      = { peak := p, held := ps.held, holdTimer := ps.holdTimer - 1 } := by
  simp [updatePeak, not_lt.mpr h, ht]

theorem updatePeak_decay (ps : PeakState) (p : ℚ) (h : p ≤ ps.held)
    (ht : ps.holdTimer = 0) :
    updatePeak ps p
      = { peak := p, held := max p (ps.held - DECAY_STEP), holdTimer := 0 } := by
  simp [updatePeak, not_lt.mpr h, ht]

theorem applyPeaks_hold (ps : PeakState) (l : List ℚ)
    (hle : ∀ q ∈ l, q ≤ ps.held) (hlen : l.length ≤ ps.holdTimer) :
    (applyPeaks ps l).held = ps.held := by
  induction l generalizing ps with
  | nil => rfl
  | cons q l ih =>
    have hq : q ≤ ps.held := hle q (List.mem_cons_self q l)
    have ht : 0 < ps.holdTimer := by
      have := hlen; simp [List.length_cons] at this; omega
    have hstep : updatePeak ps q
        = { peak := q, held := ps.held, holdTimer := ps.holdTimer - 1 } :=
      updatePeak_holding ps q hq ht
    have : applyPeaks ps (q :: l) = applyPeaks (updatePeak ps q) l := by
      simp [applyPeaks, List.foldl_cons]
    rw [this, hstep]
    refine ih _ (fun r hr => hle r (List.mem_cons_of_mem q hr)) ?_
    show l.length ≤ ps.holdTimer - 1
    simp only [List.length_cons] at hlen
    omega

/-- C5: per period the held peak jumps to a new higher peak with the hold
timer reset; while the timer is positive it decrements with the held value
unchanged; at timer zero the held value decays linearly toward the current
peak, never below it and never increasing; consequently the held value is
always ≥ the instantaneous peak (so `getDpmHold` ≥ `getDpm`), stays at a
peak for the whole hold interval, and then decreases monotonically. -/
theorem dpm_hold_evolution :
    (∀ (ps : PeakState) (p : ℚ), ps.held < p →
      updatePeak ps p = { peak := p, held := p, holdTimer := HOLD_PERIODS }) ∧
    (∀ (ps : PeakState) (p : ℚ), p ≤ ps.held → 0 < ps.holdTimer →
      (updatePeak ps p).held = ps.held ∧
      (updatePeak ps p).holdTimer = ps.holdTimer - 1) ∧
    (∀ (ps : PeakState) (p : ℚ), p ≤ ps.held → ps.holdTimer = 0 →
      (updatePeak ps p).held = max p (ps.held - DECAY_STEP) ∧
      p ≤ (updatePeak ps p).held) ∧
    (∀ (ps : PeakState) (p : ℚ), (updatePeak ps p).peak ≤ (updatePeak ps p).held) ∧
    (∀ (ps : PeakState) (l : List ℚ),
      (∀ q ∈ l, q ≤ ps.held) → l.length ≤ ps.holdTimer →
      (applyPeaks ps l).held = ps.held) ∧
    (∀ (ps : PeakState) (p : ℚ), p ≤ ps.held →
      (updatePeak ps p).held ≤ ps.held) ∧
    (∀ (st : MixerState) (c : ℤ) (leg : Fin 2) (i : Fin (MAX_CHANNELS + 1)),
      resolveChannel c = some i →
      (st.meters i leg).peak ≤ (st.meters i leg).held →
      getDpm st c leg ≤ getDpmHold st c leg) := by
  refine ⟨updatePeak_jump, ?_, ?_, ?_, applyPeaks_hold, ?_, ?_⟩
  · intro ps p h ht
    rw [updatePeak_holding ps p h ht]
    exact ⟨rfl, rfl⟩
  · intro ps p h ht
    rw [updatePeak_decay ps p h ht]
    exact ⟨rfl, le_max_left _ _⟩
  · intro ps p
    rcases lt_or_le ps.held p with h | h
    · rw [updatePeak_jump ps p h]
    · rcases Nat.eq_zero_or_pos ps.holdTimer with ht | ht
      · rw [updatePeak_decay ps p h ht]
        exact le_max_left _ _
      · rw [updatePeak_holding ps p h ht]
        exact h
  · intro ps p h
    rcases Nat.eq_zero_or_pos ps.holdTimer with ht | ht
    · rw [updatePeak_decay ps p h ht]
      refine max_le h ?_
      have : (0 : ℚ) < DECAY_STEP := by norm_num [DECAY_STEP]
      linarith
    · rw [updatePeak_holding ps p h ht]
  · intro st c leg i hres hpk
    simp only [getDpm, getDpmHold, hres]
    exact hpk

/-- Witness for C5: a jump to peak 1, one holding period, a decay period,
and the `getDpm` / `getDpmHold` comparison on the initial state. -/
theorem dpm_hold_evolution_witness :
    updatePeak ⟨0, 0, 0⟩ 1 = { peak := 1, held := 1, holdTimer := HOLD_PERIODS } ∧
    (updatePeak ⟨0, 1, 2⟩ 0).held = (1 : ℚ) ∧
    ((updatePeak ⟨0, 1, 0⟩ 0).held = max 0 ((1 : ℚ) - DECAY_STEP) ∧
      (0 : ℚ) ≤ (updatePeak ⟨0, 1, 0⟩ 0).held) ∧
    (applyPeaks ⟨0, 1, 2⟩ [1, 0]).held = (1 : ℚ) ∧
    getDpm initState 0 0 ≤ getDpmHold initState 0 0 :=
  ⟨dpm_hold_evolution.1 ⟨0, 0, 0⟩ 1 (by norm_num),
    (dpm_hold_evolution.2.1 ⟨0, 1, 2⟩ 0 (by norm_num) (by norm_num)).1,
    dpm_hold_evolution.2.2.1 ⟨0, 1, 0⟩ 0 (by norm_num) rfl,
    dpm_hold_evolution.2.2.2.2.1 ⟨0, 1, 2⟩ [1, 0]
      (by intro q hq; fin_cases hq <;> norm_num) (by norm_num),
    dpm_hold_evolution.2.2.2.2.2.2 initState 0 0 (0 : Fin (MAX_CHANNELS + 1))
      (by decide) (by norm_num [initState])⟩

/-- Modelled from the spec: fixed capacity of the OSC client registry. -/
def MAX_OSC_CLIENTS : ℕ := 5

/-- Modelled from the spec: `addOscClient` dedups by address and returns the
assigned index, or the sentinel -1 when the address is already present or the
registry is at capacity. -/
def addOscClient (reg : List String) (addr : String) : List String × ℤ :=
  if addr ∈ reg then (reg, -1)
  else if MAX_OSC_CLIENTS ≤ reg.length then (reg, -1)
  else (reg ++ [addr], (reg.length : ℤ))

/-- Modelled from the spec: `removeOscClient` removes the address when
present and is a no-op otherwise. -/
def removeOscClient (reg : List String) (addr : String) : List String :=
  reg.filter (fun a => decide (a ≠ addr))

theorem removeOscClient_not_mem (reg : List String) (addr : String) :
    addr ∉ removeOscClient reg addr := by
  intro h
  rcases (List.mem_filter).1 h with ⟨_, hp⟩
  simp at hp

theorem removeOscClient_length_lt (reg : List String) (addr : String)
    (h : addr ∈ reg) : (removeOscClient reg addr).length < reg.length := by
  have hle := List.length_filter_le (fun a => decide (a ≠ addr)) reg
  have hne : (removeOscClient reg addr).length ≠ reg.length := by
    intro heq
    have hall := (List.filter_length_eq_length).1 heq
    have := hall addr h
    simp at this
  exact lt_of_le_of_ne hle hne

/-- C9: `addOscClient` dedups by address — re-adding a present address or
adding at capacity creates no entry and returns the sentinel -1; adding a
fresh address below capacity appends it and returns an index ≥ 0;
`removeOscClient` removes the address when present and is a no-op otherwise,
after which re-adding succeeds; the registry length never exceeds its fixed
capacity bound. -/
theorem osc_registry_behaviour :
    (∀ (reg : List String) (addr : String), addr ∈ reg →
      addOscClient reg addr = (reg, -1)) ∧
    (∀ (reg : List String) (addr : String), MAX_OSC_CLIENTS ≤ reg.length →
      addOscClient reg addr = (reg, -1)) ∧
    (∀ (reg : List String) (addr : String), addr ∉ reg →
      reg.length < MAX_OSC_CLIENTS →
      (addOscClient reg addr).1 = reg ++ [addr] ∧
      0 ≤ (addOscClient reg addr).2) ∧
    (∀ (reg : List String) (addr : String), addr ∉ removeOscClient reg addr) ∧
    (∀ (reg : List String) (addr : String), addr ∉ reg →
      removeOscClient reg addr = reg) ∧
    (∀ (reg : List String) (addr : String), addr ∈ reg →
      reg.length ≤ MAX_OSC_CLIENTS →
      0 ≤ (addOscClient (removeOscClient reg addr) addr).2) ∧
    (∀ (reg : List String) (addr : String), reg.length ≤ MAX_OSC_CLIENTS →
      (addOscClient reg addr).1.length ≤ MAX_OSC_CLIENTS ∧
      (removeOscClient reg addr).length ≤ MAX_OSC_CLIENTS) := by
  have hsucc : ∀ (reg : List String) (addr : String), addr ∉ reg →
      reg.length < MAX_OSC_CLIENTS →
      (addOscClient reg addr).1 = reg ++ [addr] ∧
      0 ≤ (addOscClient reg addr).2 := by
    intro reg addr hmem hlen
    rw [addOscClient, if_neg hmem, if_neg (not_le.mpr hlen)]
    exact ⟨rfl, Int.natCast_nonneg _⟩
  refine ⟨?_, ?_, hsucc, removeOscClient_not_mem, ?_, ?_, ?_⟩
  · intro reg addr h
    simp [addOscClient, h]
  · intro reg addr h
    by_cases hm : addr ∈ reg <;> simp [addOscClient, hm, h]
  · intro reg addr h
    exact List.filter_eq_self.mpr fun a ha => by
      simp only [decide_eq_true_eq]
      intro heq
      exact h (heq ▸ ha)
  · intro reg addr hmem hlen
    exact (hsucc (removeOscClient reg addr) addr
      (removeOscClient_not_mem reg addr)
      (lt_of_lt_of_le (removeOscClient_length_lt reg addr hmem) hlen)).2
  · intro reg addr hlen
    constructor
    · by_cases hm : addr ∈ reg
      · simp [addOscClient, hm, hlen]
      · by_cases hc : MAX_OSC_CLIENTS ≤ reg.length
        · simp [addOscClient, hm, hc, hlen]
        · rw [(hsucc reg addr hm (not_le.mp hc)).1]
          simp only [List.length_append, List.length_singleton]
          omega
    · exact le_trans (List.length_filter_le _ _) hlen

/-- Witness for C9 on the concrete registry ["a", "b"]. -/
theorem osc_registry_behaviour_witness :
    addOscClient ["a", "b"] "a" = (["a", "b"], -1) ∧
    ((addOscClient ["a", "b"] "c").1 = ["a", "b", "c"] ∧
      0 ≤ (addOscClient ["a", "b"] "c").2) ∧
    "a" ∉ removeOscClient ["a", "b"] "a" ∧
    removeOscClient ["a", "b"] "c" = ["a", "b"] ∧
    0 ≤ (addOscClient (removeOscClient ["a", "b"] "a") "a").2 ∧
    (addOscClient ["a", "b"] "c").1.length ≤ MAX_OSC_CLIENTS :=
  ⟨osc_registry_behaviour.1 ["a", "b"] "a" (by decide),
    osc_registry_behaviour.2.2.1 ["a", "b"] "c" (by decide) (by decide),
    osc_registry_behaviour.2.2.2.1 ["a", "b"] "a",
    osc_registry_behaviour.2.2.2.2.1 ["a", "b"] "c" (by decide),
    osc_registry_behaviour.2.2.2.2.2.1 ["a", "b"] "a" (by decide) (by decide),
    (osc_registry_behaviour.2.2.2.2.2.2 ["a", "b"] "c" (by decide)).1⟩

/-- Modelled from the spec: constant-power pan gain for output leg A as a
function of balance (full left gives the whole signal to A, full right none;
the summed power of the two leg gains is constant). -/
noncomputable def panGainA (b : ℝ) : ℝ := Real.sqrt ((1 - b) / 2)

/-- Modelled from the spec: constant-power pan gain for output leg B. -/
noncomputable def panGainB (b : ℝ) : ℝ := Real.sqrt ((1 + b) / 2)

/-- Modelled from the spec (§4.2 steps 2-5): per-sample channel transform —
mono averaging, phase negation, constant-power panning, linear level gain —
applied before the mute gate. -/
noncomputable def channelTransform (s : ChannelStrip) (inA inB : ℝ) : ℝ × ℝ :=
  let mA : ℝ := if s.mono then (inA + inB) / 2 else inA
  let mB : ℝ := if s.mono then (inA + inB) / 2 else inB
  let pA : ℝ := if s.phase then -mA else mA
  let pB : ℝ := if s.phase then -mB else mB
  (panGainA (s.balance : ℝ) * pA * (s.level : ℝ),
    panGainB (s.balance : ℝ) * pB * (s.level : ℝ))

/-- True iff some non-master channel has its solo flag set. -/
def soloActive (st : MixerState) : Bool :=
  (List.finRange (MAX_CHANNELS + 1)).any
    (fun i => decide (i.val < MAX_CHANNELS) && (st.strips i).solo)

/-- Modelled from the spec (§4.2 step 6): effective mute is the stored mute
flag OR (solo active elsewhere AND this channel not solo AND this channel not
Master). -/
def effMute (s : ChannelStrip) (solo isMaster : Bool) : Bool :=
  s.mute || (solo && !s.solo && !isMaster)

/-- Per-sample contribution of one strip: zero when effectively muted,
otherwise the channel transform. -/
noncomputable def contribOf (s : ChannelStrip) (solo isMaster : Bool)
    (inA inB : ℝ) : ℝ × ℝ :=
  if effMute s solo isMaster then (0, 0) else channelTransform s inA inB

/-- Per-sample contribution of channel `i` to the master bus in state `st`. -/
noncomputable def channelContribution (st : MixerState)
    (i : Fin (MAX_CHANNELS + 1)) (inA inB : ℝ) : ℝ × ℝ :=
  contribOf (st.strips i) (soloActive st) (decide (i.val = MAX_CHANNELS)) inA inB

/-- Modelled from the spec (§4.2): one sample of the mixing engine — sum the
non-master channel contributions into the master bus, then apply the Master
slot's own chain. -/
noncomputable def mixSample (st : MixerState)
    (inputs : Fin (MAX_CHANNELS + 1) → ℝ × ℝ) : ℝ × ℝ :=
  let bus := ∑ i ∈ Finset.univ.filter
      (fun i : Fin (MAX_CHANNELS + 1) => i.val < MAX_CHANNELS),
    channelContribution st i (inputs i).1 (inputs i).2
  channelContribution st masterIdx bus.1 bus.2

theorem channelTransform_zero (s : ChannelStrip) :
    channelTransform s 0 0 = (0, 0) := by
  simp [channelTransform]

theorem contribOf_zero (s : ChannelStrip) (solo m : Bool) :
    contribOf s solo m 0 0 = (0, 0) := by
  rw [contribOf, channelTransform_zero]
  simp

theorem setSolo_keeps_mute (st : MixerState) (c : ℤ) (v : Bool)
    (j : Fin (MAX_CHANNELS + 1)) :
    ((setSolo st c v).strips j).mute = (st.strips j).mute := by
  rw [setSolo, updateStrip]
  cases hres : resolveChannel c with
  | none => rfl
  | some i =>
    rcases eq_or_ne j i with rfl | hne
    · simp
    · simp [Function.update_noteq hne]

theorem soloActive_eq_true (st : MixerState) (A : Fin (MAX_CHANNELS + 1))
    (hA : A.val < MAX_CHANNELS) (hsolo : (st.strips A).solo = true) :
    soloActive st = true := by
  rw [soloActive, List.any_eq_true]
  exact ⟨A, List.mem_finRange A, by simp [hA, hsolo]⟩

/-- C1: when a non-master channel A is soloed, every other non-solo
non-master channel B contributes zero to the master bus regardless of its
stored mute flag; `setSolo` never changes any stored mute flag; the Master
slot's effective mute ignores solo entirely; and with no channel soloed an
unmuted channel's contribution is its full channel transform again. -/
theorem solo_isolation :
    (∀ (st : MixerState) (A B : Fin (MAX_CHANNELS + 1)) (inA inB : ℝ),
      A.val < MAX_CHANNELS → B.val < MAX_CHANNELS → A ≠ B →
      (st.strips A).solo = true → (st.strips B).solo = false →
      channelContribution st B inA inB = (0, 0)) ∧
    (∀ (st : MixerState) (c : ℤ) (v : Bool) (ch : ℤ),
      getMute (setSolo st c v) ch = getMute st ch) ∧
    (∀ (s : ChannelStrip) (solo : Bool), effMute s solo true = s.mute) ∧
    (∀ (st : MixerState) (B : Fin (MAX_CHANNELS + 1)) (inA inB : ℝ),
      soloActive st = false → (st.strips B).mute = false →
      channelContribution st B inA inB
        = channelTransform (st.strips B) inA inB) := by
  refine ⟨?_, ?_, ?_, ?_⟩
  · intro st A B inA inB hA hB _ hsoloA hsoloB
    have hact := soloActive_eq_true st A hA hsoloA
    have hM : decide (B.val = MAX_CHANNELS) = false := by
      simp; omega
    rw [channelContribution, hact, hM, contribOf, if_pos]
    rw [effMute, hsoloB]
    simp
  · intro st c v ch
    rw [getMute, getMute]
    cases hres : resolveChannel ch with
    | none => rfl
    | some j => exact setSolo_keeps_mute st c v j
  · intro s solo
    simp [effMute]
  · intro st B inA inB hact hmute
    rw [channelContribution, hact, contribOf, if_neg]
    rw [effMute, hmute]
    simp

/-- Witness for C1: soloing channel 0 silences channel 1's contribution while
its mute flag stays 0; un-soloing restores the full transform. -/
theorem solo_isolation_witness :
    channelContribution (setSolo initState 0 true) ⟨1, by decide⟩ 1 1 = (0, 0) ∧
    getMute (setSolo initState 0 true) 1 = getMute initState 1 ∧
    effMute defaultStrip true true = defaultStrip.mute ∧
    channelContribution (setSolo (setSolo initState 0 true) 0 false) ⟨1, by decide⟩ 1 1
      = channelTransform
          ((setSolo (setSolo initState 0 true) 0 false).strips ⟨1, by decide⟩) 1 1 :=
  ⟨solo_isolation.1 (setSolo initState 0 true) ⟨0, by decide⟩ ⟨1, by decide⟩ 1 1
      (by decide) (by decide) (by decide) (by decide) (by decide),
    solo_isolation.2.1 initState 0 true 1,
    solo_isolation.2.2.1 defaultStrip true,
    solo_isolation.2.2.2 (setSolo (setSolo initState 0 true) 0 false) ⟨1, by decide⟩ 1 1
      (by decide) (by decide)⟩

theorem updateStrip_solo_fields (st : MixerState) (c : ℤ)
    (f : ChannelStrip → ChannelStrip) (hf : ∀ s, (f s).solo = s.solo)
    (j : Fin (MAX_CHANNELS + 1)) :
    ((updateStrip st c f).strips j).solo = (st.strips j).solo := by
  rw [updateStrip]
  cases hres : resolveChannel c with
  | none => rfl
  | some i =>
    rcases eq_or_ne j i with rfl | hne
    · simp [hf]
    · simp [Function.update_noteq hne]

theorem soloActive_updateStrip (st : MixerState) (c : ℤ)
    (f : ChannelStrip → ChannelStrip) (hf : ∀ s, (f s).solo = s.solo) :
    soloActive (updateStrip st c f) = soloActive st := by
  rw [soloActive, soloActive]
  congr 1
  funext i
  rw [updateStrip_solo_fields st c f hf i]

theorem channelTransform_phase (s : ChannelStrip) (inA inB : ℝ) :
    channelTransform { s with phase := true } inA inB
      = - channelTransform { s with phase := false } inA inB := by
  simp only [channelTransform, Prod.neg_mk, Prod.mk.injEq, Bool.false_eq_true,
    Bool.true_eq_false, ite_true, ite_false, if_true, if_false]
  refine ⟨by ring, by ring⟩

/-- C7: all other state equal, a channel mixed with phase set contributes the
exact sample-wise negation of its contribution with phase clear: every sample
is sign-inverted before mixing. -/
theorem phase_inverts_contribution :
    (∀ (s : ChannelStrip) (inA inB : ℝ),
      channelTransform { s with phase := true } inA inB
        = - channelTransform { s with phase := false } inA inB) ∧
    (∀ (st : MixerState) (c : ℤ) (i : Fin (MAX_CHANNELS + 1)) (inA inB : ℝ),
      resolveChannel c = some i →
      channelContribution (setPhase st c true) i inA inB
        = - channelContribution (setPhase st c false) i inA inB) := by
  refine ⟨channelTransform_phase, ?_⟩
  intro st c i inA inB hres
  have hsolo : ∀ v : Bool, soloActive (setPhase st c v) = soloActive st := by
    intro v
    exact soloActive_updateStrip st c _ (fun s => rfl)
  have hstrip : ∀ v : Bool,
      (setPhase st c v).strips i = { st.strips i with phase := v } := by
    intro v
    exact updateStrip_resolved st c _ i hres
  rw [channelContribution, channelContribution, hsolo, hsolo, hstrip, hstrip]
  rw [contribOf, contribOf]
  have hmute : effMute { st.strips i with phase := true } (soloActive st)
      (decide (i.val = MAX_CHANNELS))
      = effMute { st.strips i with phase := false } (soloActive st)
        (decide (i.val = MAX_CHANNELS)) := rfl
  rw [hmute]
  by_cases hm : effMute { st.strips i with phase := false } (soloActive st)
      (decide (i.val = MAX_CHANNELS)) = true
  · rw [if_pos hm, if_pos hm]
    simp
  · rw [if_neg hm, if_neg hm]
    exact channelTransform_phase (st.strips i) inA inB

/-- Witness for C7: channel 0 of the initial state with inputs (1, 2). -/
theorem phase_inverts_contribution_witness :
    channelTransform { defaultStrip with phase := true } 1 2
      = - channelTransform { defaultStrip with phase := false } 1 2 ∧
    channelContribution (setPhase initState 0 true) ⟨0, by decide⟩ 1 2
      = - channelContribution (setPhase initState 0 false) ⟨0, by decide⟩ 1 2 :=
  ⟨phase_inverts_contribution.1 defaultStrip 1 2,
    phase_inverts_contribution.2 initState 0 ⟨0, by decide⟩ 1 2 (by decide)⟩

/-- Scenario of the spec's end-to-end test: after `init`, `setLevel(0,1)` and
`setBalance(0,0)`. -/
def scenarioState : MixerState := setBalance (setLevel initState 0 1) 0 0

/-- Full-scale input period on channel 0, silence on every other channel. -/
noncomputable def scenarioInputs : Fin (MAX_CHANNELS + 1) → ℝ × ℝ :=
  fun i => if i.val = 0 then (1, 1) else (0, 0)

theorem scenario_contrib0 :
    channelContribution scenarioState ⟨0, by decide⟩ 1 1
      = (panGainA 0, panGainB 0) := by
  rw [channelContribution]
  rw [show soloActive scenarioState = false from by decide]
  rw [show scenarioState.strips ⟨0, by decide⟩
      = { level := 1, balance := 0, mute := false, solo := false,
          mono := false, phase := false, dpmEnabled := true } from by decide]
  rw [contribOf, if_neg (by decide)]
  simp [channelTransform]

theorem scenarioState_master_strip :
    scenarioState.strips masterIdx = defaultStrip := by
  have hres : resolveChannel 0 = some ⟨0, by decide⟩ := by decide
  rw [scenarioState, setBalance, setLevel]
  rw [updateStrip_other _ _ _ _ _ hres (by decide)]
  rw [updateStrip_other _ _ _ _ _ hres (by decide)]
  rfl

theorem scenario_master (x y : ℝ) :
    channelContribution scenarioState masterIdx x y
      = (panGainA 0 * x * (4/5), panGainB 0 * y * (4/5)) := by
  rw [channelContribution]
  rw [show soloActive scenarioState = false from by decide]
  rw [scenarioState_master_strip]
  rw [contribOf, if_neg (by decide)]
  simp [channelTransform, defaultStrip, defaultLevel]

theorem scenario_bus :
    (∑ i ∈ Finset.univ.filter
        (fun i : Fin (MAX_CHANNELS + 1) => i.val < MAX_CHANNELS),
      channelContribution scenarioState i (scenarioInputs i).1 (scenarioInputs i).2)
      = (panGainA 0, panGainB 0) := by
  rw [Finset.sum_eq_single_of_mem (⟨0, by decide⟩ : Fin (MAX_CHANNELS + 1))
    (by decide)]
  · rw [show scenarioInputs ⟨0, by decide⟩ = (1, 1) from by
      rw [scenarioInputs]; simp]
    exact scenario_contrib0
  · intro b _ hb
    have hval : ¬ (b.val = 0) := by
      intro h
      exact hb (Fin.ext h)
    rw [show scenarioInputs b = (0, 0) from by rw [scenarioInputs]; simp [hval]]
    rw [channelContribution, contribOf_zero]
    rfl

/-- C6: the mixing engine's leg gains follow a constant-power pan law — the
summed power of the two leg gains is 1 across the whole balance range, the
legs receive equal gain at centered balance — and the spec's end-to-end
scenario (full-scale input on channel 0 at centered balance) produces the
non-zero master output (2/5, 2/5) that this law predicts. -/
theorem constant_power_pan :
    (∀ b : ℝ, -1 ≤ b → b ≤ 1 → panGainA b ^ 2 + panGainB b ^ 2 = 1) ∧
    panGainA 0 = panGainB 0 ∧
    mixSample scenarioState scenarioInputs = (2/5, 2/5) ∧ ((2 : ℝ)/5 ≠ 0) := by
  have hgA : panGainA 0 * panGainA 0 = 1/2 := by
    rw [panGainA, Real.mul_self_sqrt (by norm_num)]
    norm_num
  have hgB : panGainB 0 * panGainB 0 = 1/2 := by
    rw [panGainB, Real.mul_self_sqrt (by norm_num)]
    norm_num
  refine ⟨?_, ?_, ?_, by norm_num⟩
  · intro b h1 h2
    rw [panGainA, panGainB, Real.sq_sqrt (by linarith), Real.sq_sqrt (by linarith)]
    ring
  · rw [panGainA, panGainB]
    norm_num
  · rw [mixSample]
    simp only [scenario_bus]
    rw [scenario_master]
    rw [Prod.mk.injEq]
    constructor
    · rw [hgA]; norm_num
    · rw [hgB]; norm_num

/-- Witness for C6: constant power at balance 1/2 plus the scenario output. -/
theorem constant_power_pan_witness :
    panGainA (1/2) ^ 2 + panGainB (1/2) ^ 2 = 1 ∧
    mixSample scenarioState scenarioInputs = (2/5, 2/5) :=
  ⟨constant_power_pan.1 (1/2) (by norm_num) (by norm_num),
    constant_power_pan.2.2.1⟩

end Zynmixer
